import Mathlib

/-!
Shallow embedding of the LinguaLink backend (axiestudio/lingualink),
file Backend/app/services/translation_service.py and
Backend/app/middleware/security.py, together with the language-code
helpers of Backend/app/core/config.py.

Modelling conventions:
* Python `datetime` / `time.time()` instants are rationals (`Rat`);
  `timedelta(seconds=ttl)` is the rational `ttl`.
* A Python `dict` is an insertion-ordered association list
  `List (String × v)` with no duplicate keys; `d[k] = v` replaces the
  first occurrence in place or appends, `del d[k]` removes it, exactly
  as CPython dicts behave.
* `hashlib.md5(content).hexdigest()` is an injective fingerprint of
  `content`; the embedding uses the content string
  `text ++ "|" ++ source ++ "|" ++ target` itself as the key, so key
  equality coincides with equality of the hashed content.
* Exceptions are `Except String`; the caught-and-reraised exception in
  `translate_text` is the propagated `Except.error` value.
-/

namespace LinguaLink

/-- Python dict lookup `d.get(k)` on an insertion-ordered assoc list. -/
def lookupA (k : String) : List (String × v) → Option v
  | [] => none
  | (k', x) :: t => if k' = k then some x else lookupA k t

/-- Python dict assignment `d[k] = x`: replace the first binding of `k`
in place, or append a fresh binding at the end. -/
def setA (k : String) (x : v) : List (String × v) → List (String × v)
  | [] => [(k, x)]
  | (k', y) :: t => if k' = k then (k, x) :: t else (k', y) :: setA k x t

/-- Python `del d[k]` (a no-op when `k` is absent, matching the guarded
`if key in d: del d[k]` uses in the source). -/
def eraseK (k : String) : List (String × v) → List (String × v)
  | [] => []
  | (k', y) :: t => if k' = k then t else (k', y) :: eraseK k t

/-- The key list of an assoc list. -/
def keysA (l : List (String × v)) : List String := l.map Prod.fst

@[simp] theorem keysA_nil : keysA ([] : List (String × v)) = [] := rfl

@[simp] theorem keysA_cons (p : String × v) (t : List (String × v)) :
    keysA (p :: t) = p.1 :: keysA t := rfl

theorem lookupA_eq_none (k : String) (l : List (String × v)) :
    lookupA k l = none ↔ k ∉ keysA l := by
  induction l with
  | nil => simp [lookupA]
  | cons p t ih =>
    obtain ⟨k', x⟩ := p
    by_cases h : k' = k
    · simp [lookupA, h]
    · have hne : k ≠ k' := fun e => h e.symm
      simp [lookupA, h, ih, hne]

theorem lookupA_isSome (k : String) (l : List (String × v)) :
    (lookupA k l).isSome ↔ k ∈ keysA l := by
  induction l with
  | nil => simp [lookupA]
  | cons p t ih =>
    obtain ⟨k', x⟩ := p
    by_cases h : k' = k
    · simp [lookupA, h]
    · have hne : k ≠ k' := fun e => h e.symm
      simp [lookupA, h, ih, hne]

theorem keysA_setA (k : String) (x : v) (l : List (String × v))
    (h : k ∈ keysA l) : keysA (setA k x l) = keysA l := by
  induction l with
  | nil => simp at h
  | cons p t ih =>
    obtain ⟨k', y⟩ := p
    by_cases hk : k' = k
    · simp [setA, hk]
    · simp only [keysA_cons] at h
      rcases List.mem_cons.mp h with h | h
      · exact absurd h.symm hk
      · simp [setA, hk, ih h]

theorem keysA_setA_not_mem (k : String) (x : v) (l : List (String × v))
    (h : k ∉ keysA l) : keysA (setA k x l) = keysA l ++ [k] := by
  induction l with
  | nil => simp [setA]
  | cons p t ih =>
    obtain ⟨k', y⟩ := p
    simp only [keysA_cons, List.mem_cons] at h
    push_neg at h
    simp [setA, Ne.symm h.1, ih h.2]

theorem length_setA_mem (k : String) (x : v) (l : List (String × v))
    (h : k ∈ keysA l) : (setA k x l).length = l.length := by
  induction l with
  | nil => simp at h
  | cons p t ih =>
    obtain ⟨k', y⟩ := p
    by_cases hk : k' = k
    · simp [setA, hk]
    · simp only [keysA_cons] at h
      rcases List.mem_cons.mp h with h | h
      · exact absurd h.symm hk
      · simp [setA, hk, ih h]

theorem length_setA_not_mem (k : String) (x : v) (l : List (String × v))
    (h : k ∉ keysA l) : (setA k x l).length = l.length + 1 := by
  induction l with
  | nil => simp [setA]
  | cons p t ih =>
    obtain ⟨k', y⟩ := p
    simp only [keysA_cons, List.mem_cons] at h
    push_neg at h
    simp [setA, Ne.symm h.1, ih h.2]

theorem keysA_eraseK (k : String) (l : List (String × v)) :
    keysA (eraseK k l) = (keysA l).erase k := by
  induction l with
  | nil => simp [eraseK]
  | cons p t ih =>
    obtain ⟨k', y⟩ := p
    by_cases hk : k' = k
    · simp [eraseK, hk, List.erase_cons_head]
    · simp [eraseK, hk, ih, List.erase_cons_tail, hk]

theorem length_eraseK_mem (k : String) (l : List (String × v))
    (h : k ∈ keysA l) : (eraseK k l).length = l.length - 1 := by
  induction l with
  | nil => simp at h
  | cons p t ih =>
    obtain ⟨k', y⟩ := p
    by_cases hk : k' = k
    · simp [eraseK, hk]
    · have h' : k ∈ keysA t := by
        rcases List.mem_cons.mp h with h1 | h1
        · exact absurd h1.symm hk
        · exact h1
      have h1 : 1 ≤ t.length := by
        cases t with
        | nil => simp at h'
        | cons q u => simp
      simp only [eraseK, if_neg hk, List.length_cons, ih h']
      omega

theorem eraseK_not_mem (k : String) (l : List (String × v))
    (h : k ∉ keysA l) : eraseK k l = l := by
  induction l with
  | nil => rfl
  | cons p t ih =>
    obtain ⟨k', y⟩ := p
    simp only [keysA_cons, List.mem_cons] at h
    push_neg at h
    simp [eraseK, Ne.symm h.1, ih h.2]

theorem lookupA_setA_self (k : String) (x : v) (l : List (String × v)) :
    lookupA k (setA k x l) = some x := by
  induction l with
  | nil => simp [setA, lookupA]
  | cons p t ih =>
    obtain ⟨k', y⟩ := p
    by_cases hk : k' = k
    · simp [setA, hk, lookupA]
    · simp [setA, hk, lookupA, ih]

theorem lookupA_mem_keysA (k : String) (x : v) (l : List (String × v))
    (h : lookupA k l = some x) : k ∈ keysA l := by
  have := (lookupA_isSome k l).mp
  simp [h] at this
  exact this

/-- app/models/translation.py CacheEntry: a stored translation. -/
structure CacheEntry where
  translatedText : String
  timestamp : Rat
  translator : String
  confidence : Rat
  hitCount : Nat := 1
deriving Repr, DecidableEq

/-- app/models/translation.py CacheStats (memoryUsage, a Python
object-size measurement, is not modelled). -/
structure CacheStats where
  totalEntries : Nat
  hitRate : Rat
  oldestEntry : Option Rat
  newestEntry : Option Rat
deriving Repr, DecidableEq

/-- translation_service.py TranslationCache state: `cache` and
`access_times` are insertion-ordered dicts, `hit_count` / `miss_count`
the aggregate counters. -/
structure TranslationCache where
  max_size : Nat := 1000
  ttl : Rat := 3600
  cache : List (String × CacheEntry) := []
  access_times : List (String × Rat) := []
  hit_count : Nat := 0
  miss_count : Nat := 0
deriving Repr, DecidableEq

namespace TranslationCache

/-- TranslationCache._generate_key: the md5 hex digest of
`f"\x7btext\x7d|\x7bsource_lang\x7d|\x7btarget_lang\x7d"`; the digest is modelled as the
(injectively fingerprinted) content string itself. -/
def generate_key (text source_lang target_lang : String) : String :=
  text ++ "|" ++ source_lang ++ "|" ++ target_lang

/-- TranslationCache.get, with `datetime.utcnow()` passed in as `now`.
Returns the optional entry and the mutated cache. -/
def get (c : TranslationCache) (now : Rat)
    (text source_lang target_lang : String) :
    Option CacheEntry × TranslationCache :=
  let key := generate_key text source_lang target_lang
  match lookupA key c.cache with
  | some entry =>
    if now - entry.timestamp < c.ttl then
      let entry' := { entry with hitCount := entry.hitCount + 1 }
      (some entry',
        { c with
          cache := setA key entry' c.cache
          access_times := setA key now c.access_times
          hit_count := c.hit_count + 1 })
    else
      (none,
        { c with
          cache := eraseK key c.cache
          access_times := eraseK key c.access_times
          miss_count := c.miss_count + 1 })
  | none => (none, { c with miss_count := c.miss_count + 1 })

/-- Stable insertion into a list sorted by ascending access time:
the new pair goes after every pair with a smaller-or-equal time.
Used to model Python's stable `sorted(..., key=lambda x: x[1])`. -/
def insertByTime (a : String × Rat) : List (String × Rat) → List (String × Rat)
  | [] => [a]
  | b :: t => if b.2 ≤ a.2 then b :: insertByTime a t else a :: b :: t

/-- Python `sorted(self.access_times.items(), key=lambda x: x[1])`:
a stable sort by ascending access time. -/
def sortByTime (l : List (String × Rat)) : List (String × Rat) :=
  l.foldl (fun acc a => insertByTime a acc) []

/-- TranslationCache._evict_lru: remove the `max 1 (len(cache) / 5)`
least-recently-accessed entries from both dicts. -/
def evict_lru (c : TranslationCache) : TranslationCache :=
  if c.access_times = [] then c
  else
    let num_to_remove := max 1 (c.cache.length / 5)
    let sorted_keys := sortByTime c.access_times
    let doomed := (sorted_keys.take num_to_remove).map Prod.fst
    { c with
      cache := doomed.foldl (fun m k => eraseK k m) c.cache
      access_times := doomed.foldl (fun m k => eraseK k m) c.access_times }

/-- TranslationCache.set, with `datetime.utcnow()` passed in as `now`. -/
def set (c : TranslationCache) (now : Rat)
    (text source_lang target_lang : String) (entry : CacheEntry) :
    TranslationCache :=
  let key := generate_key text source_lang target_lang
  let c := if c.cache.length ≥ c.max_size then c.evict_lru else c
  { c with
    cache := setA key entry c.cache
    access_times := setA key now c.access_times }

/-- TranslationCache.get_stats. The Python hit rate is
`hit_count / total_requests * 100` when any request was seen, else 0. -/
def get_stats (c : TranslationCache) : CacheStats :=
  let total_requests := c.hit_count + c.miss_count
  let hit_rate : Rat :=
    if total_requests > 0 then
      (c.hit_count : Rat) / (total_requests : Rat) * 100
    else 0
  let timestamps := c.cache.map (fun p => p.2.timestamp)
  { totalEntries := c.cache.length
    hitRate := hit_rate
    oldestEntry := timestamps.min?
    newestEntry := timestamps.max? }

end TranslationCache

/-- app/core/config.py NLLB_LANGUAGE_MAPPING, as an ordered pair list
(iso code, NLLB code). -/
def NLLB_LANGUAGE_MAPPING : List (String × String) :=
  [("en", "eng_Latn"), ("es", "spa_Latn"), ("fr", "fra_Latn"),
   ("de", "deu_Latn"), ("it", "ita_Latn"), ("pt", "por_Latn"),
   ("ru", "rus_Cyrl"), ("zh", "zho_Hans"), ("zh-TW", "zho_Hant"),
   ("ja", "jpn_Jpan"), ("ko", "kor_Hang"), ("ar", "arb_Arab"),
   ("hi", "hin_Deva"), ("th", "tha_Thai"), ("vi", "vie_Latn"),
   ("tr", "tur_Latn"), ("pl", "pol_Latn"), ("nl", "nld_Latn"),
   ("sv", "swe_Latn"), ("da", "dan_Latn"), ("no", "nob_Latn"),
   ("fi", "fin_Latn"), ("he", "heb_Hebr"), ("cs", "ces_Latn"),
   ("hu", "hun_Latn"), ("ro", "ron_Latn"), ("bg", "bul_Cyrl"),
   ("hr", "hrv_Latn"), ("sk", "slk_Latn"), ("sl", "slv_Latn"),
   ("et", "est_Latn"), ("lv", "lav_Latn"), ("lt", "lit_Latn"),
   ("uk", "ukr_Cyrl"), ("be", "bel_Cyrl"), ("mk", "mkd_Cyrl"),
   ("sr", "srp_Cyrl"), ("bs", "bos_Latn"), ("mt", "mlt_Latn"),
   ("is", "isl_Latn"), ("ga", "gle_Latn"), ("cy", "cym_Latn"),
   ("eu", "eus_Latn"), ("ca", "cat_Latn"), ("gl", "glg_Latn"),
   ("fa", "pes_Arab"), ("ur", "urd_Arab"), ("bn", "ben_Beng"),
   ("ta", "tam_Taml"), ("te", "tel_Telu"), ("ml", "mal_Mlym"),
   ("kn", "kan_Knda"), ("gu", "guj_Gujr"), ("pa", "pan_Guru"),
   ("mr", "mar_Deva"), ("ne", "npi_Deva"), ("si", "sin_Sinh"),
   ("my", "mya_Mymr"), ("km", "khm_Khmr"), ("lo", "lao_Laoo"),
   ("ka", "kat_Geor"), ("hy", "hye_Armn"), ("az", "azj_Latn"),
   ("kk", "kaz_Cyrl"), ("ky", "kir_Cyrl"), ("uz", "uzn_Latn"),
   ("tg", "tgk_Cyrl"), ("mn", "khk_Cyrl"), ("id", "ind_Latn"),
   ("ms", "zsm_Latn"), ("tl", "tgl_Latn"), ("sw", "swh_Latn"),
   ("am", "amh_Ethi"), ("ha", "hau_Latn"), ("yo", "yor_Latn"),
   ("ig", "ibo_Latn"), ("zu", "zul_Latn"), ("af", "afr_Latn"),
   ("xh", "xho_Latn"), ("st", "sot_Latn"), ("tn", "tsn_Latn"),
   ("ss", "ssw_Latn"), ("ve", "ven_Latn"), ("ts", "tso_Latn"),
   ("nr", "nbl_Latn")]

/-- config.get_nllb_language_code: `NLLB_LANGUAGE_MAPPING.get(iso, iso)`. -/
def get_nllb_language_code (iso_code : String) : String :=
  match lookupA iso_code NLLB_LANGUAGE_MAPPING with
  | some c => c
  | none => iso_code

/-- config.get_iso_language_code: look up in the reversed dict
`\x7bv: k for k, v in NLLB_LANGUAGE_MAPPING.items()\x7d`, where a later pair
overwrites an earlier one with the same value; equivalently the last
iso code mapped to the given NLLB code, defaulting to the input. -/
def get_iso_language_code (nllb_code : String) : String :=
  match (NLLB_LANGUAGE_MAPPING.reverse.find? (fun p => p.2 == nllb_code)) with
  | some p => p.1
  | none => nllb_code

/-- app/models/translation.py PerformanceMetrics (modelUsage,
memoryUsage and lastUpdated are not touched by the claims). -/
structure PerformanceMetrics where
  totalRequests : Nat := 0
  successfulTranslations : Nat := 0
  failedTranslations : Nat := 0
  averageResponseTime : Rat := 0
  cacheHitRate : Rat := 0
deriving Repr, DecidableEq

/-- app/models/translation.py TranslationResult. -/
structure TranslationResult where
  translatedText : String
  originalText : String
  sourceLanguage : String
  targetLanguage : String
  translator : String := "nllb-200"
  cached : Bool
  processingTime : Rat
  confidence : Rat
deriving Repr, DecidableEq

/-- The mutable state of TranslationService that translate_text touches:
the optional cache and the performance metrics; `enable_caching` is
settings.ENABLE_CACHING. -/
structure ServiceState where
  cache : Option TranslationCache
  enable_caching : Bool := true
  metrics : PerformanceMetrics := {}
deriving Repr, DecidableEq

/-- Python `str.strip()`: remove leading and trailing whitespace.
Defined structurally over the character list so concrete instances
evaluate. -/
def pyStrip (s : String) : String :=
  ⟨((s.data.dropWhile Char.isWhitespace).reverse.dropWhile
    Char.isWhitespace).reverse⟩

namespace TranslationService

/-- TranslationService._detect_language: always returns "eng_Latn". -/
def detect_language (_text : String) : String := "eng_Latn"

/-- The source tag translate_text ends up using: the caller-supplied
tag when it is truthy, otherwise the iso code of the auto-detected
NLLB code (`get_iso_language_code(await self._detect_language(text))`,
always "en" since detection is stubbed to "eng_Latn"). -/
def resolved_source_tag (text : String)
    (source_language : Option String) : String :=
  match source_language with
  | some s =>
    if s = "" then get_iso_language_code (detect_language text) else s
  | none => get_iso_language_code (detect_language text)

/-- TranslationService._update_average_response_time, called after
successfulTranslations was incremented. -/
def update_average_response_time (m : PerformanceMetrics)
    (response_time : Rat) : PerformanceMetrics :=
  let total_successful := m.successfulTranslations
  if total_successful = 1 then
    { m with averageResponseTime := response_time }
  else
    { m with averageResponseTime :=
        (m.averageResponseTime * (total_successful - 1 : Rat) + response_time)
          / (total_successful : Rat) }

/-- The per-request success bookkeeping of translate_text:
`metrics.totalRequests += 1; metrics.successfulTranslations += 1;
self._update_average_response_time(processing_time)`. -/
def record_success (m : PerformanceMetrics) (processing_time : Rat) :
    PerformanceMetrics :=
  update_average_response_time
    { m with
      totalRequests := m.totalRequests + 1
      successfulTranslations := m.successfulTranslations + 1 }
    processing_time

/-- The `except` block of translate_text:
`metrics.totalRequests += 1; metrics.failedTranslations += 1; raise`. -/
def record_failure (m : PerformanceMetrics) : PerformanceMetrics :=
  { m with
    totalRequests := m.totalRequests + 1
    failedTranslations := m.failedTranslations + 1 }

/-- TranslationService.translate_text.

Arguments beyond the Python ones, standing for the ambient effects:
`now` is `datetime.utcnow()` for cache timestamps, `elapsed` the
measured `time.time() - start_time` on the path that finishes the
request, and `compute` the outcome of the (single) call to
`_perform_translation` if one is made. Returns the result or the
propagated exception, the new state, and how many compute calls were
made. -/
def translate_text (st : ServiceState) (now elapsed : Rat)
    (text : String) (target_language : String)
    (source_language : Option String)
    (compute : Except String String) :
    Except String TranslationResult × ServiceState × Nat :=
  -- `if not text or not text.strip(): raise ValueError(...)`, caught by
  -- the `except` block which records the failure and re-raises.
  if (pyStrip text = "") then
    (Except.error "Text cannot be empty",
      { st with metrics := record_failure st.metrics }, 0)
  else
    let text := pyStrip text
    -- target_nllb and source_nllb are only fed to the compute call,
    -- whose outcome is the `compute` argument; the iso-level source
    -- tag after the auto-detect step is resolved_source_tag.
    let source_language := resolved_source_tag text source_language
    -- `if self.cache and self.settings.ENABLE_CACHING:` cache lookup.
    let lookup :=
      match st.cache, st.enable_caching with
      | some c, true =>
        let r := c.get now text source_language target_language
        (r.1, { st with cache := some r.2 })
      | _, _ => (none, st)
    match lookup with
    | (some cached_result, st) =>
      (Except.ok
        { translatedText := cached_result.translatedText
          originalText := text
          sourceLanguage := source_language
          targetLanguage := target_language
          cached := true
          processingTime := elapsed
          confidence := cached_result.confidence }, st, 0)
    | (none, st) =>
      -- `if source_language == target_language:` skip translation.
      if source_language = target_language then
        let result : TranslationResult :=
          { translatedText := text
            originalText := text
            sourceLanguage := source_language
            targetLanguage := target_language
            cached := false
            processingTime := elapsed
            confidence := 1 }
        let st :=
          match st.cache with
          | some c =>
            { st with cache := some (c.set now text source_language
                target_language
                { translatedText := text, timestamp := now
                  translator := "nllb-200", confidence := 1 }) }
          | none => st
        (Except.ok result, st, 0)
      else
        match compute with
        | Except.error e =>
          (Except.error e,
            { st with metrics := record_failure st.metrics }, 1)
        | Except.ok translated_text =>
          let result : TranslationResult :=
            { translatedText := translated_text
              originalText := text
              sourceLanguage := source_language
              targetLanguage := target_language
              cached := false
              processingTime := elapsed
              confidence := 95/100 }
          let st :=
            match st.cache with
            | some c =>
              { st with cache := some (c.set now text source_language
                  target_language
                  { translatedText := translated_text, timestamp := now
                    translator := "nllb-200", confidence := 95/100 }) }
            | none => st
          (Except.ok result,
            { st with metrics := record_success st.metrics elapsed }, 1)

end TranslationService

/-- app/middleware/security.py RateLimitMiddleware state: the limit,
the window, and the per-client request-time deques (oldest first).
`client_requests` is a `defaultdict(deque)`, modelled as a total
function defaulting to the empty list. -/
structure RateLimitMiddleware where
  calls_per_minute : Nat := 60
  window_size : Rat := 60
  client_requests : String → List Rat := fun _ => []

namespace RateLimitMiddleware

/-- Store a client's deque back into the defaultdict. -/
def store (rl : RateLimitMiddleware) (client_id : String)
    (ts : List Rat) : RateLimitMiddleware :=
  { rl with client_requests :=
      fun c => if c = client_id then ts else rl.client_requests c }

/-- RateLimitMiddleware._is_rate_limited with `time.time()` passed in as
`now`. The `while requests and requests[0] < window_start:
requests.popleft()` loop is exactly `dropWhile`; on rejection the pruned
deque is kept (the deque was mutated in place) but `now` is not
appended, on admission `now` is appended. -/
def is_rate_limited (rl : RateLimitMiddleware) (client_id : String)
    (now : Rat) : Bool × RateLimitMiddleware :=
  let window_start := now - rl.window_size
  let requests := rl.client_requests client_id
  let pruned := requests.dropWhile (fun t => decide (t < window_start))
  if pruned.length ≥ rl.calls_per_minute then
    (true, rl.store client_id pruned)
  else
    (false, rl.store client_id (pruned ++ [now]))

/-- Run a sequence of requests of one client through the limiter,
collecting the rate-limited flags in order. -/
def run (rl : RateLimitMiddleware) (client_id : String) :
    List Rat → RateLimitMiddleware × List Bool
  | [] => (rl, [])
  | t :: ts =>
    let r := rl.is_rate_limited client_id t
    let rest := r.2.run client_id ts
    (rest.1, r.1 :: rest.2)

end RateLimitMiddleware

namespace TranslationService

theorem record_success_totalRequests (m : PerformanceMetrics) (pt : Rat) :
    (record_success m pt).totalRequests = m.totalRequests + 1 := by
  unfold record_success update_average_response_time
  dsimp only
  split <;> rfl

theorem record_success_succCount (m : PerformanceMetrics) (pt : Rat) :
    (record_success m pt).successfulTranslations =
      m.successfulTranslations + 1 := by
  unfold record_success update_average_response_time
  dsimp only
  split <;> rfl

theorem record_success_avg_first (m : PerformanceMetrics) (pt : Rat)
    (h : m.successfulTranslations = 0) :
    (record_success m pt).averageResponseTime = pt := by
  unfold record_success update_average_response_time
  simp [h]

theorem record_success_avg_step (m : PerformanceMetrics) (pt : Rat)
    (h : 1 ≤ m.successfulTranslations) :
    (record_success m pt).averageResponseTime =
      (m.averageResponseTime * (m.successfulTranslations : Rat) + pt) /
        ((m.successfulTranslations : Rat) + 1) := by
  have h1 : m.successfulTranslations + 1 ≠ 1 := by omega
  unfold record_success update_average_response_time
  simp only [h1, if_false]
  push_cast
  ring_nf

theorem foldl_record_success_avg (l : List Rat) :
    ∀ m : PerformanceMetrics, 1 ≤ m.successfulTranslations →
      (l.foldl record_success m).averageResponseTime =
        (m.averageResponseTime * (m.successfulTranslations : Rat) + l.sum) /
          ((m.successfulTranslations : Rat) + (l.length : Rat)) := by
  induction l with
  | nil =>
    intro m hm
    have hn : (m.successfulTranslations : Rat) ≠ 0 := by
      have h0 : m.successfulTranslations ≠ 0 := by omega
      exact_mod_cast h0
    simp only [List.foldl_nil, List.sum_nil, List.length_nil, Nat.cast_zero,
      add_zero]
    rw [mul_div_assoc, div_self hn, mul_one]
  | cons x t ih =>
    intro m hm
    have hc : (record_success m x).successfulTranslations =
        m.successfulTranslations + 1 := record_success_succCount m x
    have hm' : 1 ≤ (record_success m x).successfulTranslations := by omega
    have hne : ((m.successfulTranslations : Rat) + 1) ≠ 0 := by positivity
    simp only [List.foldl_cons]
    rw [ih _ hm', hc, record_success_avg_step m x hm]
    push_cast
    rw [div_mul_cancel₀ _ hne]
    rw [List.sum_cons, List.length_cons]
    push_cast
    ring_nf

end TranslationService

/-- C5: recording successful latencies l1..ln (n >= 1) one by one leaves
averageResponseTime equal to the exact mean (l1 + ... + ln) / n; and a
single successful update with 1 <= successCount is exactly the
Welford-style step mean + (latency - mean) / successCount. -/
theorem C5_running_mean_exact :
    (∀ (m : PerformanceMetrics) (rt : Rat),
      1 ≤ m.successfulTranslations →
      (TranslationService.update_average_response_time m rt).averageResponseTime =
        m.averageResponseTime +
          (rt - m.averageResponseTime) / (m.successfulTranslations : Rat)) ∧
    (∀ (l : List Rat) (m : PerformanceMetrics),
      m.successfulTranslations = 0 → l ≠ [] →
      (l.foldl TranslationService.record_success m).averageResponseTime =
        l.sum / (l.length : Rat)) := by
  constructor
  · intro m rt hm
    have hn : (m.successfulTranslations : Rat) ≠ 0 := by
      have h0 : m.successfulTranslations ≠ 0 := by omega
      exact_mod_cast h0
    unfold TranslationService.update_average_response_time
    by_cases h1 : m.successfulTranslations = 1
    · simp [h1]
    · simp only [h1, if_false]
      field_simp
      ring_nf
  · intro l m hm hl
    cases l with
    | nil => exact absurd rfl hl
    | cons x t =>
      have hstep : (TranslationService.record_success m x).successfulTranslations = 1 := by
        rw [TranslationService.record_success_succCount, hm]
      simp only [List.foldl_cons]
      rw [TranslationService.foldl_record_success_avg t _ (by omega), hstep,
        TranslationService.record_success_avg_first m x hm]
      simp only [List.sum_cons, List.length_cons, Nat.cast_one]
      push_cast
      ring_nf

/-- Witness for C5 at the concrete latency sequence [3, 5, 10]: the
stored mean is 6 = (3 + 5 + 10) / 3. -/
theorem C5_running_mean_exact_witness :
    ([(3 : Rat), 5, 10].foldl TranslationService.record_success
      {}).averageResponseTime = 6 := by
  have h := C5_running_mean_exact.2 [(3 : Rat), 5, 10] {} rfl (by simp)
  rw [h]
  norm_num

theorem get_stats_totalEntries (c : TranslationCache) :
    (TranslationCache.get_stats c).totalEntries = c.cache.length := rfl

/-- C1: cache get returns the stored entry iff one exists under the
derived key and is younger than ttl; a fresh hit bumps the entry's
hitCount and the aggregate hit counter by one each (and leaves the miss
counter alone); an expired entry is deleted (totalEntries drops by one)
and counted as a miss; every absent return bumps the miss counter by
one. -/
theorem C1_cache_get_semantics (c : TranslationCache) (now : Rat)
    (text source_lang target_lang : String) :
    ((c.get now text source_lang target_lang).1.isSome ↔
      (∃ e, lookupA (TranslationCache.generate_key text source_lang
          target_lang) c.cache = some e ∧ now - e.timestamp < c.ttl)) ∧
    (∀ e, lookupA (TranslationCache.generate_key text source_lang
        target_lang) c.cache = some e →
      now - e.timestamp < c.ttl →
      (c.get now text source_lang target_lang).1 =
        some { e with hitCount := e.hitCount + 1 } ∧
      lookupA (TranslationCache.generate_key text source_lang target_lang)
          (c.get now text source_lang target_lang).2.cache =
        some { e with hitCount := e.hitCount + 1 } ∧
      (c.get now text source_lang target_lang).2.hit_count =
        c.hit_count + 1 ∧
      (c.get now text source_lang target_lang).2.miss_count =
        c.miss_count) ∧
    (∀ e, lookupA (TranslationCache.generate_key text source_lang
        target_lang) c.cache = some e →
      ¬ (now - e.timestamp < c.ttl) →
      (c.get now text source_lang target_lang).1 = none ∧
      ((c.get now text source_lang target_lang).2.get_stats).totalEntries
          + 1 = (c.get_stats).totalEntries ∧
      (c.get now text source_lang target_lang).2.miss_count =
        c.miss_count + 1 ∧
      (c.get now text source_lang target_lang).2.hit_count =
        c.hit_count) ∧
    ((c.get now text source_lang target_lang).1 = none →
      (c.get now text source_lang target_lang).2.miss_count =
        c.miss_count + 1) := by
  refine ⟨?_, ?_, ?_, ?_⟩
  · cases h : lookupA (TranslationCache.generate_key text source_lang
        target_lang) c.cache with
    | none =>
      simp [TranslationCache.get, h]
    | some e =>
      by_cases h2 : now - e.timestamp < c.ttl
      · simp only [TranslationCache.get, h]
        simp [h2]
      · simp only [TranslationCache.get, h]
        simp [h2]
  · intro e h h2
    simp only [TranslationCache.get, h]
    simp [h2, lookupA_setA_self]
  · intro e h h2
    have hmem := lookupA_mem_keysA _ _ _ h
    have hlen : 1 ≤ c.cache.length := by
      cases hc : c.cache with
      | nil => rw [hc] at hmem; simp [keysA] at hmem
      | cons p t => simp
    have hle := length_eraseK_mem _ _ hmem
    simp only [TranslationCache.get, h, h2, if_false, get_stats_totalEntries]
    refine ⟨trivial, ?_, trivial, trivial⟩
    omega
  · intro hnone
    cases h : lookupA (TranslationCache.generate_key text source_lang
        target_lang) c.cache with
    | none =>
      simp [TranslationCache.get, h]
    | some e =>
      by_cases h2 : now - e.timestamp < c.ttl
      · simp only [TranslationCache.get, h] at hnone
        simp [h2] at hnone
      · simp only [TranslationCache.get, h]
        simp [h2]

/-- A concrete cache entry used by several witnesses. -/
def sampleEntry : CacheEntry :=
  { translatedText := "hola", timestamp := 0, translator := "nllb-200",
    confidence := 1 }

/-- A concrete one-entry cache used by several witnesses, as produced
by a set of "hi" from "en" to "es" at time 0. -/
def sampleCache : TranslationCache :=
  { max_size := 5, ttl := 10, cache := [("hi|en|es", sampleEntry)],
    access_times := [("hi|en|es", 0)] }

/-- Witness for C1, exercising the fresh-hit branch on a concrete
one-entry cache: the returned entry has hitCount 2 and the aggregate
hit counter moved from 0 to 1. -/
theorem C1_cache_get_semantics_witness :
    (TranslationCache.get sampleCache 1 "hi" "en" "es").1 =
      some { translatedText := "hola", timestamp := 0,
             translator := "nllb-200", confidence := 1, hitCount := 2 } ∧
    (TranslationCache.get sampleCache 1 "hi" "en" "es").2.hit_count = 1 := by
  have h := (C1_cache_get_semantics sampleCache 1 "hi" "en" "es").2.1
    sampleEntry (by decide) (by norm_num [sampleEntry, sampleCache])
  exact ⟨h.1, h.2.2.1⟩

/-- Evaluating the concrete fresh-hit read on the sample cache. -/
theorem sampleCache_get_eval :
    TranslationCache.get sampleCache 1 "hi" "en" "es" =
      (some { translatedText := "hola", timestamp := 0,
              translator := "nllb-200", confidence := 1, hitCount := 2 },
       { max_size := 5, ttl := 10,
         cache := [("hi|en|es",
           { translatedText := "hola", timestamp := 0,
             translator := "nllb-200", confidence := 1, hitCount := 2 })],
         access_times := [("hi|en|es", 1)], hit_count := 1,
         miss_count := 0 }) := by
  simp [TranslationCache.get, sampleCache, sampleEntry, lookupA,
    TranslationCache.generate_key, setA]

/-- Counterexample to C8 as stated: after one concrete cache hit the
aggregate counters are hits = 1, misses = 0, and stats().hitRate is
100, not hits / (hits + misses) = 1. -/
theorem C8_hit_rate_counterexample :
    ((TranslationCache.get sampleCache 1 "hi" "en" "es").2.get_stats).hitRate
      = 100 ∧
    (TranslationCache.get sampleCache 1 "hi" "en" "es").2.hit_count = 1 ∧
    (TranslationCache.get sampleCache 1 "hi" "en" "es").2.miss_count = 0 ∧
    ((TranslationCache.get sampleCache 1 "hi" "en" "es").2.get_stats).hitRate
      ≠ ((TranslationCache.get sampleCache 1 "hi" "en" "es").2.hit_count : Rat)
        / (((TranslationCache.get sampleCache 1 "hi" "en" "es").2.hit_count : Rat)
          + ((TranslationCache.get sampleCache 1 "hi" "en" "es").2.miss_count : Rat)) := by
  rw [sampleCache_get_eval]
  refine ⟨?_, rfl, rfl, ?_⟩
  · simp [TranslationCache.get_stats]
  · simp [TranslationCache.get_stats]

/-- C8 (amended): stats() reports hitRate as a percentage,
hitRate = 100 * hits / (hits + misses) where hits and misses are the
aggregate counters maintained by get, and hitRate = 0 when
hits + misses = 0. -/
theorem C8_hit_rate_percent (c : TranslationCache) :
    (c.get_stats).hitRate =
      if 0 < c.hit_count + c.miss_count then
        100 * ((c.hit_count : Rat)
          / ((c.hit_count : Rat) + (c.miss_count : Rat)))
      else 0 := by
  unfold TranslationCache.get_stats
  dsimp only
  by_cases h : 0 < c.hit_count + c.miss_count
  · rw [if_pos h, if_pos h]
    push_cast
    ring
  · rw [if_neg h, if_neg h]

theorem dropWhile_eq_self_of_false {p : Rat → Bool} {l : List Rat}
    (h : ∀ x ∈ l, p x = false) : l.dropWhile p = l := by
  cases l with
  | nil => rfl
  | cons x t => simp [List.dropWhile_cons, h x (by simp)]

theorem dropWhile_eq_filter_of_sorted {a : Rat} :
    ∀ {l : List Rat}, l.Pairwise (· ≤ ·) →
      l.dropWhile (fun t => decide (t < a)) =
        l.filter (fun t => decide (a ≤ t)) := by
  intro l
  induction l with
  | nil => intro _; rfl
  | cons x t ih =>
    intro hp
    rcases List.pairwise_cons.mp hp with ⟨hx_le, hpt⟩
    by_cases hx : x < a
    · simp [List.dropWhile_cons, List.filter_cons, hx, not_le.mpr hx, ih hpt]
    · have hax : a ≤ x := not_lt.mp hx
      have hkeep : t.filter (fun u => decide (a ≤ u)) = t := by
        rw [List.filter_eq_self]
        intro u hu
        simpa using le_trans hax (hx_le u hu)
      simp [List.dropWhile_cons, List.filter_cons, hx, hax, hkeep]

theorem length_dropWhile_le' (p : Rat → Bool) (l : List Rat) :
    (l.dropWhile p).length ≤ l.length := by
  induction l with
  | nil => simp
  | cons x t ih =>
    by_cases h : p x
    · simp only [List.dropWhile_cons, h, if_true, List.length_cons]
      omega
    · simp [List.dropWhile_cons, h]

theorem length_dropWhile_lt_of_head (p : Rat → Bool) (l : List Rat)
    (h0 : l ≠ []) (hp : p (l.head h0) = true) :
    (l.dropWhile p).length < l.length := by
  cases l with
  | nil => exact absurd rfl h0
  | cons x t =>
    simp only [List.head_cons] at hp
    simp only [List.dropWhile_cons, hp, if_true, List.length_cons]
    have := length_dropWhile_le' p t
    omega

namespace RateLimitMiddleware

theorem store_requests_self (rl : RateLimitMiddleware) (client : String)
    (ts : List Rat) :
    (rl.store client ts).client_requests client = ts := by
  simp [store]

/-- An all-admitted run: as long as no pending or incoming timestamp is
older than any incoming request's window and the total count stays
within the limit, every request is admitted and appended in order. -/
theorem run_all_admitted (client : String) :
    ∀ (ts : List Rat) (rl : RateLimitMiddleware),
      (∀ x ∈ rl.client_requests client ++ ts, ∀ u ∈ ts,
        ¬ (x < u - rl.window_size)) →
      (rl.client_requests client).length + ts.length ≤
        rl.calls_per_minute →
      (rl.run client ts).2 = List.replicate ts.length false ∧
      (rl.run client ts).1.client_requests client =
        rl.client_requests client ++ ts ∧
      (rl.run client ts).1.calls_per_minute = rl.calls_per_minute ∧
      (rl.run client ts).1.window_size = rl.window_size := by
  intro ts
  induction ts with
  | nil =>
    intro rl h1 h2
    exact ⟨rfl, by simp [run], rfl, rfl⟩
  | cons t ts ih =>
    intro rl h1 h2
    have hpruned : (rl.client_requests client).dropWhile
        (fun x => decide (x < t - rl.window_size)) =
        rl.client_requests client := by
      apply dropWhile_eq_self_of_false
      intro x hx
      simpa using h1 x (by simp [hx]) t (by simp)
    have hlt : ¬ ((rl.client_requests client).length ≥
        rl.calls_per_minute) := by
      simp only [List.length_cons] at h2
      omega
    have hstep : rl.is_rate_limited client t =
        (false, rl.store client (rl.client_requests client ++ [t])) := by
      simp only [is_rate_limited, hpruned]
      rw [if_neg hlt]
    have hreq : (rl.store client (rl.client_requests client ++ [t])).client_requests
        client = rl.client_requests client ++ [t] :=
      store_requests_self ..
    have h1' : ∀ x ∈ (rl.store client (rl.client_requests client ++ [t])).client_requests
        client ++ ts, ∀ u ∈ ts,
        ¬ (x < u - (rl.store client (rl.client_requests client ++ [t])).window_size) := by
      intro x hx u hu
      rw [hreq] at hx
      have hx' : x ∈ rl.client_requests client ++ t :: ts := by
        simp at hx ⊢
        tauto
      simpa [store] using h1 x hx' u (by simp [hu])
    have h2' : ((rl.store client (rl.client_requests client ++ [t])).client_requests
        client).length + ts.length ≤
        (rl.store client (rl.client_requests client ++ [t])).calls_per_minute := by
      rw [hreq]
      simp only [List.length_append, List.length_cons, List.length_nil] at h2 ⊢
      simp only [store]
      omega
    obtain ⟨hf, hq, hc, hw⟩ := ih (rl.store client (rl.client_requests client ++ [t]))
      h1' h2'
    refine ⟨?_, ?_, ?_, ?_⟩
    · simp only [run, hstep, hf, List.length_cons, List.replicate_succ]
    · simp only [run, hstep, hq, hreq]
      rw [List.append_assoc]
      rfl
    · simpa only [run, hstep, store] using hc
    · simpa only [run, hstep, store] using hw

theorem run_append (client : String) (l1 l2 : List Rat) :
    ∀ rl : RateLimitMiddleware,
      rl.run client (l1 ++ l2) =
        (((rl.run client l1).1.run client l2).1,
          (rl.run client l1).2 ++ ((rl.run client l1).1.run client l2).2) := by
  induction l1 with
  | nil => intro rl; simp [run]
  | cons x t ih => intro rl; simp [run, ih]

theorem store_calls (rl : RateLimitMiddleware) (client : String)
    (ts : List Rat) :
    (rl.store client ts).calls_per_minute = rl.calls_per_minute := rfl

theorem store_window (rl : RateLimitMiddleware) (client : String)
    (ts : List Rat) :
    (rl.store client ts).window_size = rl.window_size := rfl

end RateLimitMiddleware

/-- A fresh rate limiter with the given limit and window and no
recorded requests, as RateLimitMiddleware.__init__ builds it. -/
def freshLimiter (N : Nat) (W : Rat) : RateLimitMiddleware :=
  { calls_per_minute := N, window_size := W }

/-- C2: the admission check prunes the client's deque to the timestamps
inside \x5bnow - W, now\x5d (for a time-ordered deque of past instants), then
rejects without recording when the pruned count reaches the limit and
otherwise appends now and admits; consequently N+1 requests of one
client inside one window see exactly the first N admitted and the last
rejected, and a request more than W after the first admitted one is
admitted again. -/
theorem C2_rate_limiter_sliding_window :
    (∀ (rl : RateLimitMiddleware) (client : String) (now : Rat),
      (rl.client_requests client).Pairwise (· ≤ ·) →
      (∀ x ∈ rl.client_requests client, x ≤ now) →
      (((rl.is_rate_limited client now).1 = true ↔
        rl.calls_per_minute ≤
          ((rl.client_requests client).filter
            (fun t => decide (now - rl.window_size ≤ t ∧ t ≤ now))).length) ∧
      ((rl.is_rate_limited client now).1 = true →
        (rl.is_rate_limited client now).2.client_requests client =
          (rl.client_requests client).filter
            (fun t => decide (now - rl.window_size ≤ t ∧ t ≤ now))) ∧
      ((rl.is_rate_limited client now).1 = false →
        (rl.is_rate_limited client now).2.client_requests client =
          (rl.client_requests client).filter
            (fun t => decide (now - rl.window_size ≤ t ∧ t ≤ now))
            ++ [now]))) ∧
    (∀ (N : Nat) (W : Rat) (client : String) (ts : List Rat)
        (tlast t' : Rat),
      1 ≤ N → ts.length = N →
      (∀ x ∈ ts ++ [tlast], ∀ u ∈ ts ++ [tlast], ¬ (x < u - W)) →
      (((freshLimiter N W).run client (ts ++ [tlast])).2 =
          List.replicate N false ++ [true] ∧
        ∀ h0 : ts ≠ [], ts.head h0 < t' - W →
          (((freshLimiter N W).run client
            (ts ++ [tlast])).1.is_rate_limited client t').1 = false)) := by
  constructor
  · intro rl client now hsorted hnow
    have hfilter : (rl.client_requests client).filter
        (fun t => decide (now - rl.window_size ≤ t ∧ t ≤ now)) =
        (rl.client_requests client).filter
          (fun t => decide (now - rl.window_size ≤ t)) := by
      apply List.filter_congr
      intro x hx
      simp [hnow x hx]
    have hdrop : (rl.client_requests client).dropWhile
        (fun t => decide (t < now - rl.window_size)) =
        (rl.client_requests client).filter
          (fun t => decide (now - rl.window_size ≤ t)) :=
      dropWhile_eq_filter_of_sorted hsorted
    rw [hfilter]
    by_cases hc : ((rl.client_requests client).filter
        (fun t => decide (now - rl.window_size ≤ t))).length ≥
        rl.calls_per_minute
    · have hstep : rl.is_rate_limited client now =
          (true, rl.store client ((rl.client_requests client).filter
            (fun t => decide (now - rl.window_size ≤ t)))) := by
        simp only [RateLimitMiddleware.is_rate_limited, hdrop]
        rw [if_pos hc]
      rw [hstep]
      refine ⟨by simpa using hc, ?_, ?_⟩
      · intro _
        exact RateLimitMiddleware.store_requests_self ..
      · intro hfalse
        simp at hfalse
    · have hstep : rl.is_rate_limited client now =
          (false, rl.store client (((rl.client_requests client).filter
            (fun t => decide (now - rl.window_size ≤ t))) ++ [now])) := by
        simp only [RateLimitMiddleware.is_rate_limited, hdrop]
        rw [if_neg hc]
      rw [hstep]
      refine ⟨by simpa using hc, ?_, ?_⟩
      · intro htrue
        simp at htrue
      · intro _
        exact RateLimitMiddleware.store_requests_self ..
  · intro N W client ts tlast t' hN hlen hwin
    have hscen := RateLimitMiddleware.run_all_admitted client ts
      (freshLimiter N W)
      (by
        intro x hx u hu
        simp only [freshLimiter, List.nil_append] at hx
        exact hwin x (by simp [hx]) u (by simp [hu]))
      (by simp [freshLimiter, hlen])
    obtain ⟨hf, hq, hc, hw⟩ := hscen
    have hrunapp := RateLimitMiddleware.run_append client ts [tlast]
      (freshLimiter N W)
    have hdrop2 : ts.dropWhile (fun x => decide (x < tlast - W)) = ts := by
      apply dropWhile_eq_self_of_false
      intro x hx
      simpa using hwin x (by simp [hx]) tlast (by simp)
    have hq' : ((freshLimiter N W).run client ts).1.client_requests client
        = ts := by
      rw [hq]; simp [freshLimiter]
    have hc' : ((freshLimiter N W).run client ts).1.calls_per_minute = N := by
      rw [hc]; rfl
    have hw' : ((freshLimiter N W).run client ts).1.window_size = W := by
      rw [hw]; rfl
    have hreject : (((freshLimiter N W).run client ts).1.is_rate_limited
        client tlast) =
        (true, ((freshLimiter N W).run client ts).1.store client ts) := by
      simp only [RateLimitMiddleware.is_rate_limited, hq', hc', hw', hdrop2]
      rw [if_pos (by omega)]
    constructor
    · rw [hrunapp]
      simp only [RateLimitMiddleware.run, hreject, hf]
      simp [hlen]
    · intro h0 hhead
      rw [hrunapp]
      simp only [RateLimitMiddleware.run, hreject]
      have hreq2 : ((((freshLimiter N W).run client ts).1.store
          client ts).client_requests client) = ts :=
        RateLimitMiddleware.store_requests_self ..
      have hcpm2 : ((((freshLimiter N W).run client ts).1.store
          client ts).calls_per_minute) = N := by
        rw [RateLimitMiddleware.store_calls, hc']
      have hws2 : ((((freshLimiter N W).run client ts).1.store
          client ts).window_size) = W := by
        rw [RateLimitMiddleware.store_window, hw']
      have hshort : (ts.dropWhile (fun x => decide (x < t' - W))).length
          < N := by
        have hlt := length_dropWhile_lt_of_head
          (fun x => decide (x < t' - W)) ts h0 (by simpa using hhead)
        omega
      simp only [RateLimitMiddleware.is_rate_limited, hreq2, hcpm2, hws2]
      rw [if_neg (by omega)]


theorem lookupA_some_mem (k : String) (a : v) :
    ∀ l : List (String × v), lookupA k l = some a → (k, a) ∈ l := by
  intro l
  induction l with
  | nil => intro h; simp [lookupA] at h
  | cons p t ih =>
    obtain ⟨k', x⟩ := p
    intro h
    by_cases hk : k' = k
    · simp [lookupA, hk] at h
      simp [hk, h]
    · simp only [lookupA, if_neg hk] at h
      exact List.mem_cons_of_mem _ (ih h)

theorem keysA_nodup_value_unique {l : List (String × v)}
    (hnd : (keysA l).Nodup) {k : String} {a b : v}
    (ha : (k, a) ∈ l) (hb : (k, b) ∈ l) : a = b := by
  induction l with
  | nil => simp at ha
  | cons p t ih =>
    simp only [keysA_cons] at hnd
    rcases List.nodup_cons.mp hnd with ⟨hp, hnd'⟩
    rcases List.mem_cons.mp ha with ha1 | ha1
    · rcases List.mem_cons.mp hb with hb1 | hb1
      · have hab := ha1.trans hb1.symm
        exact (Prod.ext_iff.mp hab).2
      · exfalso
        apply hp
        have : p.1 = k := by rw [← ha1]
        rw [this]
        exact List.mem_map_of_mem Prod.fst hb1
    · rcases List.mem_cons.mp hb with hb1 | hb1
      · exfalso
        apply hp
        have : p.1 = k := by rw [← hb1]
        rw [this]
        exact List.mem_map_of_mem Prod.fst ha1
      · exact ih hnd' ha1 hb1

theorem keysA_foldl_eraseK (ks : List String) :
    ∀ l : List (String × v),
      keysA (ks.foldl (fun m k => eraseK k m) l) =
        ks.foldl (fun m k => m.erase k) (keysA l) := by
  induction ks with
  | nil => intro l; rfl
  | cons k t ih =>
    intro l
    simp only [List.foldl_cons, ih, keysA_eraseK]

theorem mem_keysA_of_mem_foldl_eraseK (ks : List String) (k : String) :
    ∀ l : List (String × v),
      k ∈ keysA (ks.foldl (fun m k => eraseK k m) l) → k ∈ keysA l := by
  induction ks with
  | nil => intro l h; exact h
  | cons k0 t ih =>
    intro l h
    simp only [List.foldl_cons] at h
    have := ih (eraseK k0 l) h
    rw [keysA_eraseK] at this
    exact List.mem_of_mem_erase this

theorem mem_keysA_foldl_eraseK_of_not_mem (ks : List String) (k : String) :
    ∀ l : List (String × v), k ∈ keysA l → k ∉ ks →
      k ∈ keysA (ks.foldl (fun m k => eraseK k m) l) := by
  induction ks with
  | nil => intro l h _; exact h
  | cons k0 t ih =>
    intro l h hks
    simp only [List.mem_cons] at hks
    push_neg at hks
    simp only [List.foldl_cons]
    apply ih
    · rw [keysA_eraseK]
      exact List.mem_erase_of_ne hks.1 |>.mpr h
    · exact hks.2

theorem nodup_keysA_eraseK (k : String) (l : List (String × v))
    (h : (keysA l).Nodup) : (keysA (eraseK k l)).Nodup := by
  rw [keysA_eraseK]
  exact h.erase k

theorem nodup_keysA_foldl_eraseK (ks : List String) :
    ∀ l : List (String × v), (keysA l).Nodup →
      (keysA (ks.foldl (fun m k => eraseK k m) l)).Nodup := by
  induction ks with
  | nil => intro l h; exact h
  | cons k0 t ih =>
    intro l h
    simp only [List.foldl_cons]
    exact ih _ (nodup_keysA_eraseK k0 l h)

theorem not_mem_keysA_foldl_eraseK (ks : List String) (k : String) :
    ∀ l : List (String × v), (keysA l).Nodup → k ∈ ks →
      k ∉ keysA (ks.foldl (fun m k => eraseK k m) l) := by
  induction ks with
  | nil => intro l _ h; simp at h
  | cons k0 t ih =>
    intro l hnd hks
    simp only [List.foldl_cons]
    rcases List.mem_cons.mp hks with h1 | h1
    · subst h1
      intro hmem
      have := mem_keysA_of_mem_foldl_eraseK t k _ hmem
      rw [keysA_eraseK] at this
      exact (List.Nodup.not_mem_erase hnd) this
    · exact ih _ (nodup_keysA_eraseK k0 l hnd) h1

theorem length_foldl_eraseK (ks : List String) :
    ∀ l : List (String × v), ks.Nodup → (∀ k ∈ ks, k ∈ keysA l) →
      (ks.foldl (fun m k => eraseK k m) l).length = l.length - ks.length := by
  induction ks with
  | nil => intro l _ _; simp
  | cons k0 t ih =>
    intro l hnd hall
    rcases List.nodup_cons.mp hnd with ⟨hk0, hnd'⟩
    simp only [List.foldl_cons]
    have hm : k0 ∈ keysA l := hall k0 (by simp)
    have hrest : ∀ k ∈ t, k ∈ keysA (eraseK k0 l) := by
      intro k hk
      rw [keysA_eraseK]
      refine (List.mem_erase_of_ne ?_).mpr (hall k (by simp [hk]))
      intro he
      exact hk0 (he ▸ hk)
    rw [ih _ hnd' hrest, length_eraseK_mem k0 l hm, List.length_cons]
    omega

namespace TranslationCache

theorem insertByTime_perm (a : String × Rat) (l : List (String × Rat)) :
    (insertByTime a l).Perm (a :: l) := by
  induction l with
  | nil => exact List.Perm.refl _
  | cons b t ih =>
    by_cases h : b.2 ≤ a.2
    · simp only [insertByTime, h, if_true]
      exact (List.Perm.cons b ih).trans (List.Perm.swap a b t)
    · simp only [insertByTime, h, if_false]
      exact List.Perm.refl _

theorem insertByTime_pairwise (a : String × Rat)
    (l : List (String × Rat))
    (hl : l.Pairwise (fun p q => p.2 ≤ q.2)) :
    (insertByTime a l).Pairwise (fun p q => p.2 ≤ q.2) := by
  induction l with
  | nil => simp [insertByTime]
  | cons b t ih =>
    rcases List.pairwise_cons.mp hl with ⟨hb, ht⟩
    by_cases h : b.2 ≤ a.2
    · simp only [insertByTime, h, if_true]
      refine List.pairwise_cons.mpr ⟨?_, ih ht⟩
      intro q hq
      rcases List.mem_cons.mp ((insertByTime_perm a t).mem_iff.mp hq)
        with h1 | h1
      · rw [h1]
        exact h
      · exact hb q h1
    · simp only [insertByTime, h, if_false]
      refine List.pairwise_cons.mpr ⟨?_, hl⟩
      intro q hq
      rcases List.mem_cons.mp hq with h1 | h1
      · rw [h1]
        exact le_of_lt (lt_of_not_ge h)
      · exact le_trans (le_of_lt (lt_of_not_ge h)) (hb q h1)

theorem foldl_insertByTime_perm (l : List (String × Rat)) :
    ∀ acc, (l.foldl (fun acc a => insertByTime a acc) acc).Perm
      (acc ++ l) := by
  induction l with
  | nil => intro acc; simp
  | cons a t ih =>
    intro acc
    simp only [List.foldl_cons]
    exact (ih (insertByTime a acc)).trans
      (((insertByTime_perm a acc).append_right t).trans
        List.perm_middle.symm)

theorem sortByTime_perm (l : List (String × Rat)) :
    (sortByTime l).Perm l := by
  simpa [sortByTime] using foldl_insertByTime_perm l []

theorem foldl_insertByTime_pairwise (l : List (String × Rat)) :
    ∀ acc, acc.Pairwise (fun p q => p.2 ≤ q.2) →
      (l.foldl (fun acc a => insertByTime a acc) acc).Pairwise
        (fun p q => p.2 ≤ q.2) := by
  induction l with
  | nil => intro acc h; exact h
  | cons a t ih =>
    intro acc h
    simp only [List.foldl_cons]
    exact ih _ (insertByTime_pairwise a acc h)

theorem sortByTime_pairwise (l : List (String × Rat)) :
    (sortByTime l).Pairwise (fun p q => p.2 ≤ q.2) :=
  foldl_insertByTime_pairwise l [] (by simp)

end TranslationCache

/-- The implicit well-formedness of a TranslationCache: the entry dict
and the access-time dict always hold exactly the same keys (in the
same insertion order, since both are only ever touched in lockstep),
without duplicates. -/
def WF (c : TranslationCache) : Prop :=
  keysA c.cache = keysA c.access_times ∧ (keysA c.cache).Nodup

theorem WF_empty (m : Nat) (ttl : Rat) :
    WF { max_size := m, ttl := ttl } := ⟨rfl, List.nodup_nil⟩

theorem WF_get (c : TranslationCache) (now : Rat)
    (text source_lang target_lang : String) (h : WF c) :
    WF (c.get now text source_lang target_lang).2 := by
  obtain ⟨heq, hnd⟩ := h
  cases hl : lookupA (TranslationCache.generate_key text source_lang
      target_lang) c.cache with
  | none =>
    simp only [TranslationCache.get, hl]
    exact ⟨heq, hnd⟩
  | some e =>
    have hmem := lookupA_mem_keysA _ _ _ hl
    by_cases h2 : now - e.timestamp < c.ttl
    · simp only [TranslationCache.get, hl, h2, if_true]
      constructor
      · rw [keysA_setA _ _ _ hmem, keysA_setA _ _ _ (heq ▸ hmem), heq]
      · rw [keysA_setA _ _ _ hmem]
        exact hnd
    · simp only [TranslationCache.get, hl, h2, if_false]
      constructor
      · rw [keysA_eraseK, keysA_eraseK, heq]
      · rw [keysA_eraseK]
        exact hnd.erase _

theorem WF_evict_lru (c : TranslationCache) (h : WF c) :
    WF c.evict_lru := by
  obtain ⟨heq, hnd⟩ := h
  unfold TranslationCache.evict_lru
  by_cases hat : c.access_times = []
  · simp only [hat, if_true]
    exact ⟨heq, hnd⟩
  · simp only [hat, if_false]
    constructor
    · rw [keysA_foldl_eraseK, keysA_foldl_eraseK, heq]
    · exact nodup_keysA_foldl_eraseK _ _ hnd

theorem WF_set (c : TranslationCache) (now : Rat)
    (text source_lang target_lang : String) (e : CacheEntry)
    (h : WF c) :
    WF (c.set now text source_lang target_lang e) := by
  unfold TranslationCache.set
  set c' := if c.cache.length ≥ c.max_size then c.evict_lru else c with hc'
  have h' : WF c' := by
    rw [hc']
    by_cases hb : c.cache.length ≥ c.max_size
    · simp only [hb, if_true]
      exact WF_evict_lru c h
    · simp only [hb, if_false]
      exact h
  obtain ⟨heq, hnd⟩ := h'
  by_cases hmem : TranslationCache.generate_key text source_lang
      target_lang ∈ keysA c'.cache
  · constructor
    · simp only
      rw [keysA_setA _ _ _ hmem, keysA_setA _ _ _ (heq ▸ hmem), heq]
    · simp only
      rw [keysA_setA _ _ _ hmem]
      exact hnd
  · constructor
    · simp only
      rw [keysA_setA_not_mem _ _ _ hmem,
        keysA_setA_not_mem _ _ _ (heq ▸ hmem), heq]
    · simp only
      rw [keysA_setA_not_mem _ _ _ hmem, List.nodup_append]
      refine ⟨hnd, List.nodup_singleton _, ?_⟩
      intro a ha hb
      simp only [List.mem_singleton] at hb
      exact hmem (hb ▸ ha)

theorem keysA_length (l : List (String × v)) :
    (keysA l).length = l.length := List.length_map _ _

theorem access_times_length_eq (c : TranslationCache) (h : WF c) :
    c.access_times.length = c.cache.length := by
  rw [← keysA_length c.access_times, ← keysA_length c.cache, h.1]

theorem doomed_spec (c : TranslationCache) (h : WF c)
    (hlen : 1 ≤ c.cache.length) :
    ((((TranslationCache.sortByTime c.access_times).take
      (max 1 (c.cache.length / 5))).map Prod.fst).Nodup ∧
    (∀ k ∈ ((TranslationCache.sortByTime c.access_times).take
      (max 1 (c.cache.length / 5))).map Prod.fst, k ∈ keysA c.access_times) ∧
    (((TranslationCache.sortByTime c.access_times).take
      (max 1 (c.cache.length / 5))).map Prod.fst).length =
      max 1 (c.cache.length / 5)) := by
  obtain ⟨heq, hnd⟩ := h
  have hatnd : (keysA c.access_times).Nodup := heq ▸ hnd
  have hperm := TranslationCache.sortByTime_perm c.access_times
  have hpermk : (keysA (TranslationCache.sortByTime c.access_times)).Perm
      (keysA c.access_times) := hperm.map Prod.fst
  have hsortnd : (keysA (TranslationCache.sortByTime c.access_times)).Nodup :=
    hpermk.nodup_iff.mpr hatnd
  have hsublist : List.Sublist
      (((TranslationCache.sortByTime c.access_times).take
        (max 1 (c.cache.length / 5))).map Prod.fst)
      (keysA (TranslationCache.sortByTime c.access_times)) :=
    ((TranslationCache.sortByTime c.access_times).take_sublist _).map _
  refine ⟨hsublist.nodup hsortnd, ?_, ?_⟩
  · intro k hk
    exact hpermk.mem_iff.mp (hsublist.mem hk)
  · have hsl : (TranslationCache.sortByTime c.access_times).length =
        c.access_times.length := hperm.length_eq
    have hal := access_times_length_eq c ⟨heq, hnd⟩
    have hnum : max 1 (c.cache.length / 5) ≤ c.cache.length := by
      have : c.cache.length / 5 ≤ c.cache.length := Nat.div_le_self _ _
      omega
    rw [List.length_map, List.length_take, hsl, hal]
    omega

theorem evict_lru_cache_length (c : TranslationCache) (h : WF c)
    (hlen : 1 ≤ c.cache.length) :
    c.evict_lru.cache.length =
      c.cache.length - max 1 (c.cache.length / 5) := by
  obtain ⟨hdnd, hdall, hdlen⟩ := doomed_spec c h hlen
  have hat : c.access_times ≠ [] := by
    intro hnil
    have := access_times_length_eq c h
    rw [hnil] at this
    simp at this
    omega
  unfold TranslationCache.evict_lru
  simp only [hat, if_false]
  rw [length_foldl_eraseK _ _ hdnd (fun k hk => h.1 ▸ hdall k hk), hdlen]

theorem evict_lru_order (c : TranslationCache) (h : WF c) :
    ∀ (k k' : String) (a b : Rat),
      k ∈ keysA c.access_times →
      k ∉ keysA c.evict_lru.access_times →
      k' ∈ keysA c.evict_lru.access_times →
      lookupA k c.access_times = some a →
      lookupA k' c.access_times = some b →
      a ≤ b := by
  intro k k' a b hk hknot hk' hla hlb
  obtain ⟨heq, hnd⟩ := h
  have hatnd : (keysA c.access_times).Nodup := heq ▸ hnd
  by_cases hat : c.access_times = []
  · rw [hat] at hk
    simp at hk
  · unfold TranslationCache.evict_lru at hknot hk'
    simp only [hat, if_false] at hknot hk'
    set num := max 1 (c.cache.length / 5) with hnumdef
    set sorted := TranslationCache.sortByTime c.access_times with hsorteddef
    set doomed := (sorted.take num).map Prod.fst with hdoomeddef
    have hperm := TranslationCache.sortByTime_perm c.access_times
    have hsortnd : (keysA sorted).Nodup :=
      ((hperm.map Prod.fst).nodup_iff).mpr hatnd
    have hkdoomed : k ∈ doomed := by
      by_contra hkd
      exact hknot (mem_keysA_foldl_eraseK_of_not_mem doomed k
        c.access_times hk hkd)
    have hk'at : k' ∈ keysA c.access_times :=
      mem_keysA_of_mem_foldl_eraseK doomed k' c.access_times hk'
    have hk'notdoomed : k' ∉ doomed := by
      intro hkd
      exact not_mem_keysA_foldl_eraseK doomed k' c.access_times hatnd
        hkd hk'
    have hpa : (k, a) ∈ sorted :=
      hperm.mem_iff.mpr (lookupA_some_mem k a _ hla)
    have hpb : (k', b) ∈ sorted :=
      hperm.mem_iff.mpr (lookupA_some_mem k' b _ hlb)
    have hsplit : sorted = sorted.take num ++ sorted.drop num :=
      (List.take_append_drop num sorted).symm
    have hpw := TranslationCache.sortByTime_pairwise c.access_times
    rw [← hsorteddef] at hpw
    rw [hsplit] at hpw
    rcases List.pairwise_append.mp hpw with ⟨_, _, hcross⟩
    have hpa_take : (k, a) ∈ sorted.take num := by
      rcases List.mem_map.mp hkdoomed with ⟨p, hp, hp1⟩
      have hpsorted : p ∈ sorted := (sorted.take_sublist num).mem hp
      have hpeq : p = (k, a) := by
        have hpk : p = (p.1, p.2) := rfl
        have : p.2 = a := by
          apply keysA_nodup_value_unique hsortnd
            (a := p.2) (b := a) ?_ hpa
          rw [← hp1]
          exact hpk ▸ hpsorted
        rw [hpk, hp1, this]
      rw [← hpeq]
      exact hp
    have hpb_drop : (k', b) ∈ sorted.drop num := by
      rcases List.mem_append.mp (hsplit ▸ hpb) with hmem | hmem
      · exfalso
        exact hk'notdoomed (List.mem_map_of_mem Prod.fst hmem)
      · exact hmem
    exact hcross (k, a) hpa_take (k', b) hpb_drop

theorem evict_lru_max_size (c : TranslationCache) :
    c.evict_lru.max_size = c.max_size := by
  unfold TranslationCache.evict_lru
  split <;> rfl

theorem set_max_size (c : TranslationCache) (now : Rat)
    (text s t : String) (e : CacheEntry) :
    (c.set now text s t e).max_size = c.max_size := by
  unfold TranslationCache.set
  split <;> simp [evict_lru_max_size]

theorem set_cache_length_le (c : TranslationCache) (now : Rat)
    (text s t : String) (e : CacheEntry) (h : WF c)
    (hm : 1 ≤ c.max_size) (hlen : c.cache.length ≤ c.max_size) :
    (c.set now text s t e).cache.length ≤ c.max_size := by
  unfold TranslationCache.set
  by_cases hb : c.cache.length ≥ c.max_size
  · simp only [hb, if_true]
    have hlen1 : 1 ≤ c.cache.length := le_trans hm hb
    have hev := evict_lru_cache_length c h hlen1
    have h1 : 1 ≤ max 1 (c.cache.length / 5) := le_max_left _ _
    by_cases hmem : TranslationCache.generate_key text s t ∈
        keysA c.evict_lru.cache
    · rw [length_setA_mem _ _ _ hmem, hev]
      omega
    · rw [length_setA_not_mem _ _ _ hmem, hev]
      omega
  · simp only [hb, if_false]
    push_neg at hb
    by_cases hmem : TranslationCache.generate_key text s t ∈
        keysA c.cache
    · rw [length_setA_mem _ _ _ hmem]
      omega
    · rw [length_setA_not_mem _ _ _ hmem]
      omega

/-- One entry of a set-operation trace: the utcnow instant, the text,
the source and target tags and the entry to store. -/
def applySet (c : TranslationCache)
    (op : Rat × String × String × String × CacheEntry) :
    TranslationCache :=
  c.set op.1 op.2.1 op.2.2.1 op.2.2.2.1 op.2.2.2.2

theorem foldl_applySet_bound
    (ops : List (Rat × String × String × String × CacheEntry)) :
    ∀ c : TranslationCache, WF c → 1 ≤ c.max_size →
      c.cache.length ≤ c.max_size →
      WF (ops.foldl applySet c) ∧
      (ops.foldl applySet c).max_size = c.max_size ∧
      (ops.foldl applySet c).cache.length ≤ c.max_size := by
  induction ops with
  | nil => intro c h hm hlen; exact ⟨h, rfl, hlen⟩
  | cons op t ih =>
    intro c h hm hlen
    simp only [List.foldl_cons]
    have hwf' : WF (applySet c op) := WF_set c op.1 op.2.1 op.2.2.1
      op.2.2.2.1 op.2.2.2.2 h
    have hms' : (applySet c op).max_size = c.max_size :=
      set_max_size c op.1 op.2.1 op.2.2.1 op.2.2.2.1 op.2.2.2.2
    have hlen' : (applySet c op).cache.length ≤ (applySet c op).max_size := by
      rw [hms']
      exact set_cache_length_le c op.1 op.2.1 op.2.2.1 op.2.2.2.1
        op.2.2.2.2 h hm hlen
    obtain ⟨ha, hb, hc⟩ := ih (applySet c op) hwf' (hms' ▸ hm) hlen'
    exact ⟨ha, hb.trans hms', hms' ▸ hc⟩

/-- C3: set evicts before inserting exactly when the entry count is at
or above maxSize; eviction removes exactly max 1 (size/5) entries and
only least-recently-accessed ones (no evicted key was accessed more
recently than a surviving key); hence a distinct-key sequence of sets
starting from an empty cache never exceeds maxSize entries. -/
theorem C3_lru_eviction_and_capacity :
    (∀ (c : TranslationCache) (now : Rat) (text s t : String)
        (e : CacheEntry),
      c.cache.length ≥ c.max_size →
      c.set now text s t e =
        { c.evict_lru with
          cache := setA (TranslationCache.generate_key text s t) e
            c.evict_lru.cache
          access_times := setA (TranslationCache.generate_key text s t)
            now c.evict_lru.access_times }) ∧
    (∀ c : TranslationCache, WF c → 1 ≤ c.cache.length →
      c.evict_lru.cache.length =
        c.cache.length - max 1 (c.cache.length / 5) ∧
      ∀ (k k' : String) (a b : Rat),
        k ∈ keysA c.access_times →
        k ∉ keysA c.evict_lru.access_times →
        k' ∈ keysA c.evict_lru.access_times →
        lookupA k c.access_times = some a →
        lookupA k' c.access_times = some b →
        a ≤ b) ∧
    (∀ (m : Nat) (ttl : Rat)
        (ops : List (Rat × String × String × String × CacheEntry)),
      1 ≤ m →
      (ops.map (fun op => TranslationCache.generate_key op.2.1 op.2.2.1
        op.2.2.2.1)).Nodup →
      ∀ i, ((ops.take i).foldl applySet
        { max_size := m, ttl := ttl }).cache.length ≤ m) := by
  refine ⟨?_, ?_, ?_⟩
  · intro c now text s t e h
    unfold TranslationCache.set
    rw [if_pos h]
  · intro c h hlen
    exact ⟨evict_lru_cache_length c h hlen, evict_lru_order c h⟩
  · intro m ttl ops hm _ i
    have := (foldl_applySet_bound (ops.take i)
      { max_size := m, ttl := ttl } (WF_empty m ttl) hm (by simp)).2.2
    exact this

/-- A one-slot cache at capacity, used as input of the C3 witness. -/
def fullCache : TranslationCache :=
  { max_size := 1, ttl := 10, cache := [("a|en|es", sampleEntry)],
    access_times := [("a|en|es", 0)] }

/-- Witness for C3: a set on the full one-slot cache first evicts (the
single entry, since max 1 (1/5) = 1) and then inserts; the eviction
leaves 0 entries; and two distinct-key sets on an empty one-slot cache
never leave more than one entry. -/
theorem C3_lru_eviction_and_capacity_witness :
    (fullCache.set 1 "b" "en" "es" sampleEntry =
      { fullCache.evict_lru with
        cache := setA "b|en|es" sampleEntry fullCache.evict_lru.cache
        access_times := setA "b|en|es" 1 fullCache.evict_lru.access_times }) ∧
    fullCache.evict_lru.cache.length = 0 ∧
    ∀ i, (([((0 : Rat), "a", "en", "es", sampleEntry),
        ((1 : Rat), "b", "en", "es", sampleEntry)].take i).foldl applySet
      { max_size := 1, ttl := 10 }).cache.length ≤ 1 := by
  refine ⟨?_, ?_, ?_⟩
  · exact C3_lru_eviction_and_capacity.1 fullCache 1 "b" "en" "es"
      sampleEntry (by decide)
  · have h := (C3_lru_eviction_and_capacity.2.1 fullCache
      ⟨by decide, by decide⟩ (by decide)).1
    rw [h]
    decide
  · exact C3_lru_eviction_and_capacity.2.2 1 10
      [((0 : Rat), "a", "en", "es", sampleEntry),
       ((1 : Rat), "b", "en", "es", sampleEntry)]
      (by decide) (by decide)

/-- C10: the entry dict and the access-time dict always hold exactly
the same key set; each of get, set and the LRU eviction inserts into or
deletes from both together, so starting from a well-formed cache every
operation leaves the two key sets identical. -/
theorem C10_cache_maps_key_sets_agree :
    (∀ (c : TranslationCache) (now : Rat) (text s t : String), WF c →
      WF (c.get now text s t).2 ∧
      ∀ k, k ∈ keysA (c.get now text s t).2.cache ↔
        k ∈ keysA (c.get now text s t).2.access_times) ∧
    (∀ (c : TranslationCache) (now : Rat) (text s t : String)
        (e : CacheEntry), WF c →
      WF (c.set now text s t e) ∧
      ∀ k, k ∈ keysA (c.set now text s t e).cache ↔
        k ∈ keysA (c.set now text s t e).access_times) ∧
    (∀ c : TranslationCache, WF c →
      WF c.evict_lru ∧
      ∀ k, k ∈ keysA c.evict_lru.cache ↔
        k ∈ keysA c.evict_lru.access_times) := by
  refine ⟨?_, ?_, ?_⟩
  · intro c now text s t h
    have hw := WF_get c now text s t h
    exact ⟨hw, fun k => by rw [hw.1]⟩
  · intro c now text s t e h
    have hw := WF_set c now text s t e h
    exact ⟨hw, fun k => by rw [hw.1]⟩
  · intro c h
    have hw := WF_evict_lru c h
    exact ⟨hw, fun k => by rw [hw.1]⟩

/-- Witness for C10: the sample one-entry cache is well formed, and so
is the cache after a concrete get, set and eviction. -/
theorem C10_cache_maps_key_sets_agree_witness :
    WF (TranslationCache.get sampleCache 1 "hi" "en" "es").2 ∧
    WF (TranslationCache.set sampleCache 2 "yo" "en" "es" sampleEntry) ∧
    WF (TranslationCache.evict_lru sampleCache) :=
  ⟨(C10_cache_maps_key_sets_agree.1 sampleCache 1 "hi" "en" "es"
      ⟨by decide, by decide⟩).1,
   (C10_cache_maps_key_sets_agree.2.1 sampleCache 2 "yo" "en" "es"
      sampleEntry ⟨by decide, by decide⟩).1,
   (C10_cache_maps_key_sets_agree.2.2 sampleCache
      ⟨by decide, by decide⟩).1⟩

/-- Witness for C2 at limit 2, window 60, requests at times 0, 1, 2 and
a later request at time 100: the first two are admitted, the third
rejected, and the one at time 100 admitted again. -/
theorem C2_rate_limiter_sliding_window_witness :
    ((freshLimiter 2 60).run "c" ([(0 : Rat), 1] ++ [2])).2 =
      List.replicate 2 false ++ [true] ∧
    (((freshLimiter 2 60).run "c"
      ([(0 : Rat), 1] ++ [2])).1.is_rate_limited "c" 100).1 = false := by
  have h := C2_rate_limiter_sliding_window.2 2 60 "c" [(0 : Rat), 1] 2 100
    (by norm_num) (by simp)
    (by
      intro x hx u hu
      fin_cases hx <;> fin_cases hu <;> norm_num)
  refine ⟨h.1, h.2 (by simp) (by norm_num)⟩

/-- A service state with an empty cache enabled, used by the
translate_text counterexamples and witnesses. -/
def svc0 : ServiceState := { cache := some { max_size := 10, ttl := 100 } }

/-- Counterexample to C6 as stated: a whitespace-only request is
rejected before compute, but the generic exception handler still
records it, so totalRequests and failedTranslations move from 0 to 1
even though the claim says no metrics counter changes. -/
theorem C6_validation_metrics_counterexample :
    (TranslationService.translate_text svc0 0 0 "   " "es" (some "en")
      (Except.ok "hola")).2.1.metrics.totalRequests = 1 ∧
    (TranslationService.translate_text svc0 0 0 "   " "es" (some "en")
      (Except.ok "hola")).2.1.metrics.failedTranslations = 1 ∧
    svc0.metrics.totalRequests = 0 ∧
    svc0.metrics.failedTranslations = 0 ∧
    (TranslationService.translate_text svc0 0 0 "   " "es" (some "en")
      (Except.ok "hola")).1 = Except.error "Text cannot be empty" := by
  refine ⟨by decide, by decide, rfl, rfl, rfl⟩

/-- C6 (amended): an empty-after-trim input fails fast with the
validation error before any compute invocation (zero compute calls)
and without touching the cache, and the only metrics effect is the
generic failure accounting: totalRequests and failedTranslations each
grow by one while successfulTranslations and averageResponseTime are
unchanged. -/
theorem C6_validation_failure_effects (st : ServiceState)
    (now elapsed : Rat) (text target : String) (source : Option String)
    (compute : Except String String) (h : pyStrip text = "") :
    (TranslationService.translate_text st now elapsed text target source
      compute).1 = Except.error "Text cannot be empty" ∧
    (TranslationService.translate_text st now elapsed text target source
      compute).2.2 = 0 ∧
    (TranslationService.translate_text st now elapsed text target source
      compute).2.1.cache = st.cache ∧
    (TranslationService.translate_text st now elapsed text target source
      compute).2.1.metrics.totalRequests =
      st.metrics.totalRequests + 1 ∧
    (TranslationService.translate_text st now elapsed text target source
      compute).2.1.metrics.failedTranslations =
      st.metrics.failedTranslations + 1 ∧
    (TranslationService.translate_text st now elapsed text target source
      compute).2.1.metrics.successfulTranslations =
      st.metrics.successfulTranslations ∧
    (TranslationService.translate_text st now elapsed text target source
      compute).2.1.metrics.averageResponseTime =
      st.metrics.averageResponseTime := by
  refine ⟨?_, ?_, ?_, ?_, ?_, ?_, ?_⟩ <;>
    simp [TranslationService.translate_text, h,
      TranslationService.record_failure]

/-- Witness for C6 (amended) at the concrete whitespace-only request. -/
theorem C6_validation_failure_effects_witness :
    (TranslationService.translate_text svc0 0 0 " " "es" (some "en")
      (Except.ok "hola")).1 = Except.error "Text cannot be empty" ∧
    (TranslationService.translate_text svc0 0 0 " " "es" (some "en")
      (Except.ok "hola")).2.2 = 0 ∧
    (TranslationService.translate_text svc0 0 0 " " "es" (some "en")
      (Except.ok "hola")).2.1.cache = svc0.cache := by
  have h := C6_validation_failure_effects svc0 0 0 " " "es" (some "en")
    (Except.ok "hola") (by decide)
  exact ⟨h.1, h.2.1, h.2.2.1⟩

/-- C9: when the request reaches the compute step and the external
Translate call raises, translate_text records exactly one failed
request (totalRequests and failedTranslations +1, success count and
latency mean untouched), writes no cache entry, performs exactly one
compute call (no retry), and propagates the same error to the caller. -/
theorem C9_compute_failure_propagation (st : ServiceState)
    (now elapsed : Rat) (text target : String) (source : Option String)
    (e : String)
    (htext : ¬ pyStrip text = "")
    (hsrc : TranslationService.resolved_source_tag (pyStrip text) source
      ≠ target)
    (hmiss : ∀ c, st.cache = some c →
      TranslationCache.generate_key (pyStrip text)
        (TranslationService.resolved_source_tag (pyStrip text) source)
        target ∉ keysA c.cache) :
    (TranslationService.translate_text st now elapsed text target source
      (Except.error e)).1 = Except.error e ∧
    (TranslationService.translate_text st now elapsed text target source
      (Except.error e)).2.2 = 1 ∧
    (TranslationService.translate_text st now elapsed text target source
      (Except.error e)).2.1.metrics.totalRequests =
      st.metrics.totalRequests + 1 ∧
    (TranslationService.translate_text st now elapsed text target source
      (Except.error e)).2.1.metrics.failedTranslations =
      st.metrics.failedTranslations + 1 ∧
    (TranslationService.translate_text st now elapsed text target source
      (Except.error e)).2.1.metrics.successfulTranslations =
      st.metrics.successfulTranslations ∧
    (TranslationService.translate_text st now elapsed text target source
      (Except.error e)).2.1.metrics.averageResponseTime =
      st.metrics.averageResponseTime ∧
    (st.cache = none →
      (TranslationService.translate_text st now elapsed text target
        source (Except.error e)).2.1.cache = none) ∧
    (∀ c, st.cache = some c →
      ∃ c', (TranslationService.translate_text st now elapsed text
          target source (Except.error e)).2.1.cache = some c' ∧
        c'.cache = c.cache) := by
  rcases hcache : st.cache with _ | c
  · simp only [TranslationService.translate_text, htext, if_false,
      hcache, TranslationService.record_failure]
    cases st.enable_caching <;>
      simp [hsrc, TranslationService.record_failure, hcache]
  · have hlook : lookupA (TranslationCache.generate_key (pyStrip text)
        (TranslationService.resolved_source_tag (pyStrip text) source)
        target) c.cache = none :=
      (lookupA_eq_none _ _).mpr (hmiss c hcache)
    have hget : c.get now (pyStrip text)
        (TranslationService.resolved_source_tag (pyStrip text) source)
        target = (none, { c with miss_count := c.miss_count + 1 }) := by
      simp only [TranslationCache.get, hlook]
    simp only [TranslationService.translate_text, htext, if_false,
      hcache]
    cases st.enable_caching <;>
      simp [hget, hsrc, TranslationService.record_failure, hcache]

/-- Witness for C9 at a concrete failing compute call on the empty
cache: the error string comes back unchanged, one compute call was
made, and the failure counters moved from 0 to 1. -/
theorem C9_compute_failure_propagation_witness :
    (TranslationService.translate_text svc0 0 0 "hello" "es" (some "en")
      (Except.error "model crashed")).1 =
      Except.error "model crashed" ∧
    (TranslationService.translate_text svc0 0 0 "hello" "es" (some "en")
      (Except.error "model crashed")).2.2 = 1 ∧
    (TranslationService.translate_text svc0 0 0 "hello" "es" (some "en")
      (Except.error "model crashed")).2.1.metrics.totalRequests = 1 ∧
    (TranslationService.translate_text svc0 0 0 "hello" "es" (some "en")
      (Except.error "model crashed")).2.1.metrics.failedTranslations
      = 1 := by
  have h := C9_compute_failure_propagation svc0 0 0 "hello" "es"
    (some "en") "model crashed" (by decide) (by decide)
    (by intro c hc; cases hc; decide)
  exact ⟨h.1, h.2.1, h.2.2.1, h.2.2.2.1⟩

theorem evict_lru_ttl (c : TranslationCache) :
    c.evict_lru.ttl = c.ttl := by
  unfold TranslationCache.evict_lru
  split <;> rfl

theorem set_ttl (c : TranslationCache) (now : Rat)
    (text s t : String) (e : CacheEntry) :
    (c.set now text s t e).ttl = c.ttl := by
  unfold TranslationCache.set
  split <;> simp [evict_lru_ttl]

/-- C4: when the resolved source language equals the target language
and the request is not already cached, translate_text returns the
trimmed text unchanged with confidence 1 without invoking compute, and
stores it in the cache under the lookup key scheme, so the identical
request repeated within the TTL is answered from the cache (with the
same text and confidence, flagged cached). -/
theorem C4_same_language_identity (st : ServiceState)
    (now1 now2 elapsed1 elapsed2 : Rat) (text target : String)
    (source : Option String) (compute1 compute2 : Except String String)
    (c : TranslationCache)
    (htext : ¬ pyStrip text = "")
    (hsrc : TranslationService.resolved_source_tag (pyStrip text) source
      = target)
    (hcache : st.cache = some c)
    (henable : st.enable_caching = true)
    (hmiss : TranslationCache.generate_key (pyStrip text) target target
      ∉ keysA c.cache)
    (hfresh : now2 - now1 < c.ttl) :
    (TranslationService.translate_text st now1 elapsed1 text target
      source compute1).1 = Except.ok
      { translatedText := pyStrip text, originalText := pyStrip text,
        sourceLanguage := target, targetLanguage := target,
        cached := false, processingTime := elapsed1, confidence := 1 } ∧
    (TranslationService.translate_text st now1 elapsed1 text target
      source compute1).2.2 = 0 ∧
    (TranslationService.translate_text
      (TranslationService.translate_text st now1 elapsed1 text target
        source compute1).2.1 now2 elapsed2 text target source
      compute2).1 = Except.ok
      { translatedText := pyStrip text, originalText := pyStrip text,
        sourceLanguage := target, targetLanguage := target,
        cached := true, processingTime := elapsed2, confidence := 1 } ∧
    (TranslationService.translate_text
      (TranslationService.translate_text st now1 elapsed1 text target
        source compute1).2.1 now2 elapsed2 text target source
      compute2).2.2 = 0 := by
  have hlook1 : lookupA (TranslationCache.generate_key (pyStrip text)
      target target) c.cache = none := (lookupA_eq_none _ _).mpr hmiss
  have hget1 : c.get now1 (pyStrip text) target target =
      (none, { c with miss_count := c.miss_count + 1 }) := by
    simp only [TranslationCache.get, hlook1]
  have hr1 : TranslationService.translate_text st now1 elapsed1 text
      target source compute1 =
      (Except.ok
        { translatedText := pyStrip text, originalText := pyStrip text,
          sourceLanguage := target, targetLanguage := target,
          cached := false, processingTime := elapsed1, confidence := 1 },
       { st with cache := some (TranslationCache.set
          { c with miss_count := c.miss_count + 1 } now1 (pyStrip text)
          target target
          { translatedText := pyStrip text, timestamp := now1,
            translator := "nllb-200", confidence := 1 }) }, 0) := by
    simp only [TranslationService.translate_text, htext, if_false,
      hcache, henable, hsrc, hget1]
    simp
  have hlook2 : lookupA (TranslationCache.generate_key (pyStrip text)
      target target)
      (TranslationCache.set { c with miss_count := c.miss_count + 1 }
        now1 (pyStrip text) target target
        { translatedText := pyStrip text, timestamp := now1,
          translator := "nllb-200", confidence := 1 }).cache =
      some { translatedText := pyStrip text, timestamp := now1,
             translator := "nllb-200", confidence := 1 } := by
    simp only [TranslationCache.set]
    exact lookupA_setA_self ..
  have httl : (TranslationCache.set
      { c with miss_count := c.miss_count + 1 } now1 (pyStrip text)
      target target
      { translatedText := pyStrip text, timestamp := now1,
        translator := "nllb-200", confidence := 1 }).ttl = c.ttl :=
    set_ttl ..
  refine ⟨?_, ?_, ?_, ?_⟩
  · rw [hr1]
  · rw [hr1]
  · rw [hr1]
    simp only [TranslationService.translate_text, htext, if_false,
      henable, hsrc]
    simp [TranslationCache.get, hlook2, httl, hfresh]
  · rw [hr1]
    simp only [TranslationService.translate_text, htext, if_false,
      henable, hsrc]
    simp [TranslationCache.get, hlook2, httl, hfresh]

/-- Witness for C4 at a concrete same-language request ("hola", es→es)
against the empty enabled cache at times 0 and 1 with ttl 100. -/
theorem C4_same_language_identity_witness :
    (TranslationService.translate_text svc0 0 5 "hola" "es" (some "es")
      (Except.ok "unused")).1 = Except.ok
      { translatedText := "hola", originalText := "hola",
        sourceLanguage := "es", targetLanguage := "es",
        cached := false, processingTime := 5, confidence := 1 } ∧
    (TranslationService.translate_text
      (TranslationService.translate_text svc0 0 5 "hola" "es"
        (some "es") (Except.ok "unused")).2.1 1 7 "hola" "es"
      (some "es") (Except.ok "unused")).1 = Except.ok
      { translatedText := "hola", originalText := "hola",
        sourceLanguage := "es", targetLanguage := "es",
        cached := true, processingTime := 7, confidence := 1 } := by
  have h := C4_same_language_identity svc0 0 1 5 7 "hola" "es"
    (some "es") (Except.ok "unused") (Except.ok "unused")
    { max_size := 10, ttl := 100 }
    (by decide) (by decide) rfl rfl (by decide) (by norm_num)
  exact ⟨h.1, h.2.2.1⟩

/-- Counterexample to C7 as stated: "en" and "eng_Latn" both resolve to
the canonical NLLB code "eng_Latn", yet the cache keys derived for
otherwise identical requests with these two target tags differ, and a
request repeated with the aliased tag misses the cache and invokes
compute again instead of hitting the entry stored by the first call. -/
theorem C7_cache_key_counterexample :
    get_nllb_language_code "en" = get_nllb_language_code "eng_Latn" ∧
    TranslationCache.generate_key "hello" "es" "en" ≠
      TranslationCache.generate_key "hello" "es" "eng_Latn" ∧
    (TranslationService.translate_text
      (TranslationService.translate_text svc0 0 0 "hello" "en"
        (some "es") (Except.ok "hola")).2.1 1 1 "hello" "eng_Latn"
      (some "es") (Except.ok "hola")).2.2 = 1 := by
  refine ⟨by decide, by decide, by decide⟩

/-- C7 (amended): the cache key is the fingerprint of the pipe-joined
text and the caller-level tags actually passed to the cache (the
trimmed text, the caller-supplied or auto-detected source tag, and the
caller-supplied target tag), not the resolved canonical NLLB codes;
tags that differ as strings always yield different keys, even when
they alias to the same canonical code. -/
theorem C7_cache_key_caller_tags :
    (∀ text s t : String, TranslationCache.generate_key text s t =
      text ++ "|" ++ s ++ "|" ++ t) ∧
    (∀ text s t t' : String, t ≠ t' →
      TranslationCache.generate_key text s t ≠
        TranslationCache.generate_key text s t') ∧
    (∀ text s s' t : String, s ≠ s' →
      TranslationCache.generate_key text s t ≠
        TranslationCache.generate_key text s' t) := by
  refine ⟨fun _ _ _ => rfl, ?_, ?_⟩
  · intro text s t t' hne heq
    apply hne
    have hd := congrArg String.data heq
    simp only [TranslationCache.generate_key, String.data_append] at hd
    exact String.ext (List.append_cancel_left hd)
  · intro text s s' t hne heq
    apply hne
    have hd := congrArg String.data heq
    simp only [TranslationCache.generate_key, String.data_append] at hd
    have h1 := List.append_cancel_right hd
    have h2 := List.append_cancel_right h1
    exact String.ext (List.append_cancel_left h2)

/-- Witness for C7 (amended): distinct target tags "en" and "eng_Latn"
give distinct keys for the same text and source. -/
theorem C7_cache_key_caller_tags_witness :
    TranslationCache.generate_key "hello" "es" "en" ≠
      TranslationCache.generate_key "hello" "es" "eng_Latn" :=
  C7_cache_key_caller_tags.2.1 "hello" "es" "en" "eng_Latn" (by decide)

end LinguaLink
